import Mathlib

/-!
Shallow embedding of the computational core of `GMProc.py` (EzGM):
the Butterworth-filter configuration logic, the Newmark-beta SDOF
solver `sdof_ltha`, the intensity-measure derivations of
`get_parameters` (Arias intensity, significant durations, Fourier /
power spectra), and the `RotDxx_spectrum` rotation sweep.

Real-valued signals are modelled as `List ℝ`; machine floats are
idealised as exact reals, and NumPy elementwise array operations are
expressed per element.  Python `None`-able cutoff entries are
`Option ℚ` (the filter-configuration logic is discrete and exact, so
it is kept computable over `ℚ`).  Fallible code paths (the `raise`
statements and the Python runtime errors that the filter code can hit)
are modelled with `Except`.
-/

namespace GMProc

/-! ## Butterworth filter configuration (`butterworth_filter`, lines 96-151)

`cut_off` is a 2-element pair whose entries may be `None`.  Lines
102-110 classify the filter: both entries present selects a bandpass,
a `None` first entry selects `'low'` with the second entry as cutoff,
otherwise (`None` second entry) `'high'` with the first entry.
Note that `(None, None)` falls into the `'low'` branch with a `None`
cutoff value. -/

/-- Outcome of the `filter_type` / `cut_off` classification at
`GMProc.py` lines 102-110.  `low`/`high` carry the scalar the code
assigns to `cut_off`, which can still be `none` in the `low` branch. -/
inductive FilterSel : Type
  | band (lo hi : ℚ)
  | low (c : Option ℚ)
  | high (c : Option ℚ)
deriving DecidableEq, Repr

/-- Lines 102-110 of `butterworth_filter`: classification of the
cutoff pair.  Mirrors the `if cut_off[0] is not None and cut_off[1]
is not None / elif cut_off[0] is None / else` cascade. -/
def select_filter (cutLo cutHi : Option ℚ) : FilterSel :=
  match cutLo, cutHi with
  | some lo, some hi => .band lo hi
  | none, hi => .low hi
  | some lo, _ => .high (some lo)

/-- Python runtime errors reachable from `butterworth_filter`.
`valueError` stands for the explicit configuration `raise ValueError`
statements at lines 99 and 101; `typeError` for the `TypeError` raised
by `None / float` at line 147; `zeroDivisionError` for `1.0 / dt` at
line 116 with `dt = 0`. -/
inductive PyError : Type
  | valueError
  | typeError
  | zeroDivisionError
deriving DecidableEq, Repr

/-- Lines 116-117 and 147 of `butterworth_filter`: the normalized
critical frequencies `wp = cut_off / nyq` with `nyq = 0.5 / dt`.
A `none` scalar cutoff (only possible via the `(None, None)` input)
raises a `TypeError` here; `dt = 0` raises a `ZeroDivisionError`
earlier, at `sampling_rate = 1.0 / dt`. -/
def butter_wp (sel : FilterSel) (dt : ℚ) : Except PyError (List ℚ) :=
  if dt = 0 then .error .zeroDivisionError
  else
    let nyq : ℚ := 1 / dt * (1 / 2)
    match sel with
    | .band lo hi => .ok [lo / nyq, hi / nyq]
    | .low (some c) => .ok [c / nyq]
    | .low none => .error .typeError
    | .high (some c) => .ok [c / nyq]
    | .high none => .error .typeError

/-- The `butterworth_filter` configuration pipeline, lines 96-147: the
input-shape validation (a list that is not 2 elements long raises the
configuration `ValueError` of line 101), the filter-type selection and
the normalized-cutoff computation.  The numeric `filtfilt` output is
not needed by any claim. -/
def butterworth_config (cut_off : List (Option ℚ)) (dt : ℚ) :
    Except PyError (List ℚ) :=
  match cut_off with
  | [lo, hi] => butter_wp (select_filter lo hi) dt
  | _ => .error .valueError

/-! ## Arias intensity (`get_parameters`, lines 410-416) -/

/-- NumPy `np.cumsum`: running sums of a list (`cumsum [a, b, c] =
[a, a + b, a + b + c]`). -/
def cumsum (l : List ℝ) : List ℝ :=
  (l.scanl (· + ·) 0).tail

/-- Line 411: `Aint = np.cumsum(Ag ** 2) * np.pi * dt / (2 * 9.81)`,
the running Arias-intensity curve. -/
noncomputable def ariasCurve (Ag : List ℝ) (dt : ℝ) : List ℝ :=
  (cumsum (Ag.map (fun x => x ^ 2))).map
    (fun s => s * Real.pi * dt / (2 * 9.81))

/-- Line 412: `param['Arias'] = Aint[-1]`, the terminal value of the
running curve. -/
noncomputable def arias_total (Ag : List ℝ) (dt : ℝ) : ℝ :=
  (ariasCurve Ag dt).getLastD 0

/-! ## Significant durations (`get_parameters`, lines 426-440)

`mask = (Aint >= 0.05 * Aint[-1]) * (Aint <= frac * Aint[-1])`,
`timed = t[mask]`, `t1 = round(timed[0], 3)`, `t2 = round(timed[-1], 3)`,
duration `= round(t2 - t1, 3)`, with `frac = 0.75` and `0.95`.  The
time base is `t = np.linspace(0, (n1 - 1) * dt, n1)`, i.e.
`t[i] = i * dt`. -/

/-- Python `round(x, 3)` idealised over exact reals (round half up;
CPython uses banker's rounding on binary floats at exact ties, which
exact-real inputs only meet on a measure-zero set; monotonicity, the
only property used, is shared). -/
noncomputable def round3 (x : ℝ) : ℝ :=
  ((round (x * 1000) : ℤ) : ℝ) / 1000

/-- Lines 386 and 426-428 / 434-436: the time stamps `t[mask]` whose
running Arias intensity lies between `5%` and `frac` of the terminal
value. -/
noncomputable def sigMaskTimes (Ag : List ℝ) (dt : ℝ) (frac : ℝ) :
    List ℝ :=
  let t := (List.range Ag.length).map (fun i : ℕ => (i : ℝ) * dt)
  let A := ariasCurve Ag dt
  let L := A.getLastD 0
  ((t.zip A).filter
      (fun q => decide (0.05 * L ≤ q.2 ∧ q.2 ≤ frac * L))).map Prod.fst

/-- Lines 429-432 / 437-440: the significant duration
`round(round(timed[-1], 3) - round(timed[0], 3), 3)`. -/
noncomputable def sigDur (Ag : List ℝ) (dt : ℝ) (frac : ℝ) : ℝ :=
  let timed := sigMaskTimes Ag dt frac
  round3 (round3 (timed.getLastD 0) - round3 (timed.headD 0))

/-! ## Newmark-beta SDOF solver (`sdof_ltha`, lines 156-260)

The NumPy implementation runs all periods simultaneously through
elementwise array arithmetic; every operation in the time loop acts
columnwise (per period), so the semantics is a per-period scalar
recurrence, embedded here as `sdof_single` mapped over the period
grid. -/

/-- Line 219: `Gamma = np.ones((1, n2)) * (1 / 2)` — the same value
for every period. -/
noncomputable def newmarkGamma : ℝ := 1 / 2

/-- Lines 221-223: `Beta` starts at `1/6` (linear acceleration) and is
replaced by `1/4` (average acceleration) at the periods where
`dt / T > 0.55`. -/
noncomputable def newmarkBeta (dt T : ℝ) : ℝ :=
  if 0.55 < dt / T then 1 / 4 else 1 / 6

/-- The per-period `Beta` row built by lines 221-223 for a whole
period grid. -/
noncomputable def sdofBetas (dt : ℝ) (T : List ℝ) : List ℝ :=
  T.map (newmarkBeta dt)

/-- One Newmark time step (lines 249-257) for a single period:
given the previous state `(u, v, ac)` and the force increment
`dp = p[i+1] - p[i]`, produce the next state. -/
noncomputable def newmarkStep (a1 a4 a6 a2 a3 a5 kf aa bb : ℝ)
    (s : ℝ × ℝ × ℝ) (dp : ℝ) : ℝ × ℝ × ℝ :=
  let dpf := dp + aa * s.2.1 + bb * s.2.2
  let du := dpf / kf
  let dv := a1 * du - a4 * s.2.1 - a6 * s.2.2
  let da := a2 * du - a3 * s.2.1 - a5 * s.2.2
  (s.1 + du, s.2.1 + dv, s.2.2 + da)

/-- The solver `sdof_ltha` restricted to a single period `T`: the four response
histories (relative displacement `u`, relative velocity `v`, relative
acceleration `ac`, total acceleration `ac_tot`), each of the length of
the record.  Follows lines 210-258 with the period-indexed arrays
specialised to one column. -/
noncomputable def sdof_single (Ag : List ℝ) (dt T xi m : ℝ) :
    List ℝ × List ℝ × List ℝ × List ℝ :=
  match Ag with
  | [] => ([], [], [], [])
  | _ :: _ =>
    let wn := 2 * Real.pi * (1 / T)
    let k := m * wn ^ 2
    let c := 2 * m * wn * xi
    let Gamma := newmarkGamma
    let Beta := newmarkBeta dt T
    let a1 := Gamma / (Beta * dt)
    let a2 := 1 / (Beta * dt ^ 2)
    let a3 := 1 / (Beta * dt)
    let a4 := Gamma / Beta
    let a5 := 1 / (2 * Beta)
    let a6 := (Gamma / (2 * Beta) - 1) * dt
    let kf := k + a1 * c + a2 * m
    let aa := a3 * m + a4 * c
    let bb := a5 * m + a6 * c
    let p := Ag.map (fun x => -m * x)
    let ac0 := (p.headD 0 - c * 0 - k * 0) / m
    let dps := List.zipWith (fun pi pj => pj - pi) p p.tail
    let states := dps.scanl (newmarkStep a1 a4 a6 a2 a3 a5 kf aa bb)
      (0, 0, ac0)
    let u := states.map (fun s => s.1)
    let v := states.map (fun s => s.2.1)
    let ac := states.map (fun s => s.2.2)
    let ac_tot := List.zipWith (· + ·) ac Ag
    (u, v, ac, ac_tot)

/-- Full `sdof_ltha(Ag, dt, T, xi, m)`: the response histories for every
period of the grid. -/
noncomputable def sdof_ltha (Ag : List ℝ) (dt : ℝ) (T : List ℝ)
    (xi m : ℝ) : List (List ℝ × List ℝ × List ℝ × List ℝ) :=
  T.map (fun Tj => sdof_single Ag dt Tj xi m)

/-! ## Fourier and power amplitude spectra (`get_parameters`,
lines 491-508)

`Famp` is the `dt`-scaled one-sided FFT magnitude of the zero-padded
record and `freq` the matching positive frequencies; both enter this
fragment as already-computed value lists.  Line 500 computes
`Pamp = Famp ** 2 / (np.pi * t[-1] * aRMS ** 2)`; lines 501-506 build
the two `(frequency, value)` matrices; lines 507-508 store them —
and line 508 reads `param['PAS'] = FAS`, storing the Fourier
amplitude matrix under the `'PAS'` key and discarding `Pamp`. -/

/-- The two spectra stored in the returned parameter dictionary. -/
structure SpectraOut : Type where
  FAS : List (ℝ × ℝ)
  PAS : List (ℝ × ℝ)

/-- Lines 500-508.  `Td = t[-1]` is the record duration, `aRMS` the
root-mean-square acceleration.  Note the last line: the `'PAS'` field
receives the `FAS` matrix, exactly as `param['PAS'] = FAS` does. -/
noncomputable def fourier_spectra (freq Famp : List ℝ) (Td aRMS : ℝ) :
    SpectraOut :=
  let Pamp := Famp.map (fun x => x ^ 2 / (Real.pi * Td * aRMS ^ 2))
  let FASmat := freq.zip Famp
  let PASmat := freq.zip Pamp
  { FAS := FASmat, PAS := FASmat }

/-! ## `np.percentile` and the RotDxx spectrum
(`RotDxx_spectrum`, lines 569-595) -/

/-- NumPy `np.percentile(a, q)` with the default linear interpolation:
sort ascending, take the virtual index `q/100 · (n-1)` and
interpolate between its two neighbouring order statistics. -/
noncomputable def np_percentile (l : List ℝ) (q : ℝ) : ℝ :=
  let s := List.insertionSort (· ≤ ·) l
  let n := l.length
  let pos : ℝ := q / 100 * ((n : ℝ) - 1)
  let i : ℕ := (⌊pos⌋).toNat
  let g : ℝ := pos - ((⌊pos⌋ : ℤ) : ℝ)
  (1 - g) * s.getD i 0 + g * s.getD (min (i + 1) (n - 1)) 0

/-- NumPy `np.deg2rad`: degrees to radians. -/
noncomputable def deg2rad (θ : ℕ) : ℝ := (θ : ℝ) * Real.pi / 180

/-- NumPy `np.max(np.abs(...))` over one time series (equal to the true
peak absolute value whenever the series is non-empty, since absolute
values are nonnegative). -/
noncomputable def peakAbs (l : List ℝ) : ℝ :=
  (l.map (fun x => |x|)).foldl max 0

/-- Lines 569-575: components of unequal length are aligned by
zero-padding the shorter one. -/
def padToMatch (Ag1 Ag2 : List ℝ) : List ℝ × List ℝ :=
  let n := max Ag1.length Ag2.length
  (Ag1 ++ List.replicate (n - Ag1.length) 0,
   Ag2 ++ List.replicate (n - Ag2.length) 0)

/-- Lines 583-590: run both (aligned) components through the SDOF
solver with unit mass, then for every integer angle `θ ∈ [0°, 180°)`
and every period the peak absolute rotated displacement
`max_t |u1·cos θ + u2·sin θ|`: one row per angle. -/
noncomputable def Rot_Disp_matrix (Ag1 Ag2 : List ℝ) (dt : ℝ)
    (T : List ℝ) (xi : ℝ) : List (List ℝ) :=
  let A := padToMatch Ag1 Ag2
  let U1 := (sdof_ltha A.1 dt T xi 1).map (fun r => r.1)
  let U2 := (sdof_ltha A.2 dt T xi 1).map (fun r => r.1)
  (List.range 180).map (fun θ =>
    List.zipWith (fun u1 u2 =>
      peakAbs (List.zipWith
        (fun x y => x * Real.cos (deg2rad θ) + y * Real.sin (deg2rad θ))
        u1 u2)) U1 U2)

/-- Line 592: `Rot_Acc = Rot_Disp * (2 * np.pi / T) ** 2`, the
rotated pseudo-acceleration matrix (per row, elementwise against the
period grid). -/
noncomputable def Rot_Acc_matrix (Ag1 Ag2 : List ℝ) (dt : ℝ)
    (T : List ℝ) (xi : ℝ) : List (List ℝ) :=
  (Rot_Disp_matrix Ag1 Ag2 dt T xi).map
    (fun row => List.zipWith (fun d Tj => d * (2 * Real.pi / Tj) ^ 2) row T)

/-- One column (fixed period index `j`) of the 180-row rotated
pseudo-acceleration matrix: the values over which the `axis=0`
percentile of line 593 is taken. -/
noncomputable def rotAccColumn (Ag1 Ag2 : List ℝ) (dt : ℝ) (T : List ℝ)
    (xi : ℝ) (j : ℕ) : List ℝ :=
  (Rot_Acc_matrix Ag1 Ag2 dt T xi).map (fun row => row.getD j 0)

/-- Line 593: `Sa_RotDxx = np.percentile(Rot_Acc, xx, axis=0)`, one
value per period. -/
noncomputable def RotDxx_spectrum (Ag1 Ag2 : List ℝ) (dt : ℝ)
    (T : List ℝ) (xi : ℝ) (xx : ℝ) : List ℝ :=
  (List.range T.length).map
    (fun j => np_percentile (rotAccColumn Ag1 Ag2 dt T xi j) xx)

/-! ## Supporting lemmas -/

lemma scanl_add_ne_nil (init : ℝ) (l : List ℝ) :
    l.scanl (· + ·) init ≠ [] := by
  cases l <;> simp [List.scanl]

lemma chain'_scanl_add_of_nonneg :
    ∀ (l : List ℝ) (init : ℝ), (∀ x ∈ l, 0 ≤ x) →
      List.Chain' (· ≤ ·) (l.scanl (· + ·) init)
  | [], init, _ => by simp [List.scanl]
  | x :: xs, init, h => by
    rw [List.scanl_cons]
    rw [List.singleton_append, List.chain'_cons']
    refine ⟨?_, chain'_scanl_add_of_nonneg xs (init + x)
      (fun y hy => h y (List.mem_cons_of_mem _ hy))⟩
    intro y hy
    have hhead : (List.scanl (· + ·) (init + x) xs).head? = some (init + x) := by
      cases xs <;> simp [List.scanl]
    rw [hhead, Option.mem_some_iff] at hy
    have hx : 0 ≤ x := h x (List.mem_cons_self _ _)
    subst hy
    linarith

lemma chain'_cumsum_of_nonneg (l : List ℝ) (h : ∀ x ∈ l, 0 ≤ x) :
    List.Chain' (· ≤ ·) (cumsum l) :=
  (chain'_scanl_add_of_nonneg l 0 h).tail

lemma mem_scanl_add_nonneg :
    ∀ (l : List ℝ) (init : ℝ), 0 ≤ init → (∀ x ∈ l, 0 ≤ x) →
      ∀ y ∈ l.scanl (· + ·) init, 0 ≤ y
  | [], init, hinit, _, y, hy => by
    simp [List.scanl] at hy; simpa [hy] using hinit
  | x :: xs, init, hinit, h, y, hy => by
    rw [List.scanl_cons, List.singleton_append, List.mem_cons] at hy
    rcases hy with rfl | hy
    · exact hinit
    · exact mem_scanl_add_nonneg xs (init + x)
        (by have := h x (List.mem_cons_self _ _); linarith)
        (fun z hz => h z (List.mem_cons_of_mem _ hz)) y hy

lemma mem_cumsum_nonneg (l : List ℝ) (h : ∀ x ∈ l, 0 ≤ x) :
    ∀ y ∈ cumsum l, 0 ≤ y := fun y hy =>
  mem_scanl_add_nonneg l 0 le_rfl h y (List.mem_of_mem_tail hy)

lemma length_cumsum (l : List ℝ) : (cumsum l).length = l.length := by
  simp [cumsum, List.length_tail, List.length_scanl]

lemma length_ariasCurve (Ag : List ℝ) (dt : ℝ) :
    (ariasCurve Ag dt).length = Ag.length := by
  simp [ariasCurve, length_cumsum]

lemma chain'_ariasCurve (Ag : List ℝ) (dt : ℝ) (hdt : 0 ≤ dt) :
    List.Chain' (· ≤ ·) (ariasCurve Ag dt) := by
  have hsq : ∀ x ∈ Ag.map (fun x => x ^ 2), (0 : ℝ) ≤ x := by
    intro x hx
    rcases List.mem_map.1 hx with ⟨a, _, rfl⟩
    positivity
  have hchain := chain'_cumsum_of_nonneg _ hsq
  rw [ariasCurve, List.chain'_map]
  refine hchain.imp ?_
  intro a b hab
  have hc : (0 : ℝ) ≤ Real.pi * dt / (2 * 9.81) := by positivity
  calc a * Real.pi * dt / (2 * 9.81)
      = a * (Real.pi * dt / (2 * 9.81)) := by ring
    _ ≤ b * (Real.pi * dt / (2 * 9.81)) := by
        exact mul_le_mul_of_nonneg_right hab hc
    _ = b * Real.pi * dt / (2 * 9.81) := by ring

lemma mem_ariasCurve_nonneg (Ag : List ℝ) (dt : ℝ) (hdt : 0 ≤ dt) :
    ∀ y ∈ ariasCurve Ag dt, 0 ≤ y := by
  intro y hy
  rcases List.mem_map.1 hy with ⟨s, hs, rfl⟩
  have hsq : ∀ x ∈ Ag.map (fun x => x ^ 2), (0 : ℝ) ≤ x := by
    intro x hx
    rcases List.mem_map.1 hx with ⟨a, _, rfl⟩
    positivity
  have hs0 : 0 ≤ s := mem_cumsum_nonneg _ hsq s hs
  have hc : (0 : ℝ) ≤ Real.pi * dt / (2 * 9.81) := by positivity
  calc (0 : ℝ) = 0 * (Real.pi * dt / (2 * 9.81)) := by ring
    _ ≤ s * (Real.pi * dt / (2 * 9.81)) := mul_le_mul_of_nonneg_right hs0 hc
    _ = s * Real.pi * dt / (2 * 9.81) := by ring

lemma round3_mono : Monotone round3 := by
  intro x y hxy
  unfold round3
  have h1 : x * 1000 ≤ y * 1000 := by linarith
  have h2 : round (x * 1000) ≤ round (y * 1000) := by
    rw [round_eq, round_eq]
    exact Int.floor_mono (by linarith)
  have h3 : ((round (x * 1000) : ℤ) : ℝ) ≤ ((round (y * 1000) : ℤ) : ℝ) := by
    exact_mod_cast h2
  linarith

lemma round3_zero : round3 0 = 0 := by
  simp [round3]

lemma headD_mem_of_ne_nil {α : Type} (l : List α) (d : α) (h : l ≠ []) :
    l.headD d ∈ l := by
  cases l with
  | nil => exact absurd rfl h
  | cons a t => simp

lemma getLastD_mem_of_ne_nil {α : Type} :
    ∀ (l : List α) (d : α), l ≠ [] → l.getLastD d ∈ l
  | [], _, h => absurd rfl h
  | [a], _, _ => by simp
  | a :: b :: t, d, _ => by
    rw [List.getLastD_cons]
    exact List.mem_cons_of_mem _
      (getLastD_mem_of_ne_nil (b :: t) a (by simp))

lemma headD_le_of_pairwise {l : List ℝ} (hs : l.Pairwise (· ≤ ·))
    {x : ℝ} (hx : x ∈ l) : l.headD 0 ≤ x := by
  cases l with
  | nil => simp at hx
  | cons a t =>
    rcases List.mem_cons.1 hx with rfl | hx
    · simp
    · simpa using List.rel_of_pairwise_cons hs hx

lemma le_getLastD_of_pairwise :
    ∀ {l : List ℝ}, l.Pairwise (· ≤ ·) → ∀ (d : ℝ) {x : ℝ}, x ∈ l →
      x ≤ l.getLastD d
  | [], _, _, x, hx => by simp at hx
  | [a], _, d, x, hx => by
    rcases List.mem_singleton.1 hx with rfl
    simp
  | a :: b :: t, hs, d, x, hx => by
    rw [List.getLastD_cons]
    rcases List.mem_cons.1 hx with rfl | hx
    · have hmem : (b :: t).getLastD x ∈ b :: t :=
        getLastD_mem_of_ne_nil (b :: t) x (by simp)
      exact List.rel_of_pairwise_cons hs hmem
    · exact le_getLastD_of_pairwise hs.tail x hx

/-- The terminal Arias intensity `Aint[-1]` is nonnegative for
`dt ≥ 0` (it is a scaled sum of squares). -/
lemma ariasLast_nonneg (Ag : List ℝ) (dt : ℝ) (hdt : 0 ≤ dt) :
    0 ≤ (ariasCurve Ag dt).getLastD 0 := by
  by_cases h : ariasCurve Ag dt = []
  · simp [h]
  · exact mem_ariasCurve_nonneg Ag dt hdt _
      (getLastD_mem_of_ne_nil _ 0 h)

/-- The masked time stamps are listed in (non-strictly) increasing
order: they are a sublist of the increasing time base `t[i] = i·dt`. -/
lemma pairwise_sigMaskTimes (Ag : List ℝ) (dt : ℝ) (hdt : 0 ≤ dt)
    (frac : ℝ) : (sigMaskTimes Ag dt frac).Pairwise (· ≤ ·) := by
  set t := (List.range Ag.length).map (fun i : ℕ => (i : ℝ) * dt) with ht
  have htlen : t.length = Ag.length := by simp [ht]
  have hAlen : (ariasCurve Ag dt).length = Ag.length :=
    length_ariasCurve Ag dt
  have htsorted : t.Pairwise (· ≤ ·) := by
    refine List.Pairwise.map _ ?_ (List.pairwise_le_range Ag.length)
    intro a b hab
    have : (a : ℝ) ≤ (b : ℝ) := by exact_mod_cast hab
    exact mul_le_mul_of_nonneg_right this hdt
  have hzip : (t.zip (ariasCurve Ag dt)).map Prod.fst = t :=
    List.map_fst_zip t (ariasCurve Ag dt) (by rw [htlen, hAlen])
  have hsub : List.Sublist (sigMaskTimes Ag dt frac) t := by
    rw [← hzip]
    exact List.Sublist.map Prod.fst (List.filter_sublist _)
  exact htsorted.sublist hsub

/-- Widening the upper mask fraction keeps every masked time stamp
(for `dt ≥ 0`, so that the terminal Arias intensity is nonnegative). -/
lemma sigMaskTimes_mono_mem (Ag : List ℝ) (dt : ℝ) (hdt : 0 ≤ dt)
    {f1 f2 : ℝ} (hf : f1 ≤ f2) :
    ∀ x ∈ sigMaskTimes Ag dt f1, x ∈ sigMaskTimes Ag dt f2 := by
  intro x hx
  have hL : 0 ≤ (ariasCurve Ag dt).getLastD 0 :=
    ariasLast_nonneg Ag dt hdt
  simp only [sigMaskTimes, List.mem_map, List.mem_filter,
    decide_eq_true_eq] at hx ⊢
  rcases hx with ⟨q, ⟨hqmem, hq1, hq2⟩, rfl⟩
  exact ⟨q, ⟨hqmem, hq1,
    le_trans hq2 (mul_le_mul_of_nonneg_right hf hL)⟩, rfl⟩

/-- Core ordering argument for the significant durations: with a
nonnegative time step, whenever both masked windows are non-empty the
`5%-95%` window extends the `5%-75%` window on both sides, so the
rounded durations are ordered and nonnegative. -/
lemma sigDur_ordering (Ag : List ℝ) (dt : ℝ) (hdt : 0 ≤ dt)
    (h75 : sigMaskTimes Ag dt 0.75 ≠ [])
    (h95 : sigMaskTimes Ag dt 0.95 ≠ []) :
    0 ≤ sigDur Ag dt 0.75 ∧ sigDur Ag dt 0.75 ≤ sigDur Ag dt 0.95 := by
  set T75 := sigMaskTimes Ag dt 0.75 with hT75
  set T95 := sigMaskTimes Ag dt 0.95 with hT95
  have hp75 : T75.Pairwise (· ≤ ·) := pairwise_sigMaskTimes Ag dt hdt 0.75
  have hp95 : T95.Pairwise (· ≤ ·) := pairwise_sigMaskTimes Ag dt hdt 0.95
  have hsubset : ∀ x ∈ T75, x ∈ T95 :=
    sigMaskTimes_mono_mem Ag dt hdt (by norm_num)
  have hhead75 : T75.headD 0 ∈ T75 := headD_mem_of_ne_nil _ 0 h75
  have hlast75 : T75.getLastD 0 ∈ T75 := getLastD_mem_of_ne_nil _ 0 h75
  -- the 75% window is contained in the 95% window
  have h1 : T95.headD 0 ≤ T75.headD 0 :=
    headD_le_of_pairwise hp95 (hsubset _ hhead75)
  have h2 : T75.getLastD 0 ≤ T95.getLastD 0 :=
    le_getLastD_of_pairwise hp95 0 (hsubset _ hlast75)
  have h3 : T75.headD 0 ≤ T75.getLastD 0 :=
    le_getLastD_of_pairwise hp75 0 hhead75
  constructor
  · show 0 ≤ round3 (round3 (T75.getLastD 0) - round3 (T75.headD 0))
    have : round3 0 ≤ round3 (round3 (T75.getLastD 0) - round3 (T75.headD 0)) :=
      round3_mono (by have := round3_mono h3; linarith)
    rw [round3_zero] at this
    exact this
  · show round3 (round3 (T75.getLastD 0) - round3 (T75.headD 0)) ≤
      round3 (round3 (T95.getLastD 0) - round3 (T95.headD 0))
    exact round3_mono (by
      have ha := round3_mono h1
      have hb := round3_mono h2
      linarith)

/-- All four histories of `sdof_single` have the length of the input
record (for any parameters whatsoever: the recurrence is total). -/
lemma sdof_single_lengths (Ag : List ℝ) (dt T xi m : ℝ) :
    (sdof_single Ag dt T xi m).1.length = Ag.length ∧
    (sdof_single Ag dt T xi m).2.1.length = Ag.length ∧
    (sdof_single Ag dt T xi m).2.2.1.length = Ag.length ∧
    (sdof_single Ag dt T xi m).2.2.2.length = Ag.length := by
  match Ag with
  | [] => simp [sdof_single]
  | a :: rest =>
    simp only [sdof_single]
    constructor
    · simp [List.length_scanl]
    constructor
    · simp [List.length_scanl]
    constructor
    · simp [List.length_scanl]
    · simp [List.length_scanl]

lemma scanl_headD {α β : Type} (f : β → α → β) (b : β) (l : List α)
    (d : β) : (l.scanl f b).headD d = b := by
  cases l <;> simp [List.scanl]

/-- Lines 242-246 and 258: the first total-acceleration sample is
`ac[0] + Ag[0]` with `ac[0] = (p[0] - c·0 - k·0) / m` and
`p[0] = -m·Ag[0]`, hence `0` whenever `m ≠ 0`. -/
lemma sdof_single_ac_tot_headD (Ag : List ℝ) (dt T xi m : ℝ)
    (hm : m ≠ 0) (hA : Ag ≠ []) :
    (sdof_single Ag dt T xi m).2.2.2.headD 0 = 0 := by
  match Ag with
  | a :: rest =>
    simp only [sdof_single]
    cases rest with
    | nil =>
      simp [List.scanl]
      field_simp
      ring
    | cons b rest' =>
      simp [List.scanl, newmarkStep]
      field_simp
      ring

lemma getD_zero_eq_headD {α : Type} (l : List α) (d : α) :
    l.getD 0 d = l.headD d := by
  cases l <;> simp

lemma getD_length_sub_one_eq_getLastD (l : List ℝ) :
    l.getD (l.length - 1) 0 = l.getLastD 0 := by
  rw [List.getD_eq_getElem?_getD, List.getLastD_eq_getLast?,
    ← List.getLast?_eq_getElem?]

lemma np_percentile_hundred (l : List ℝ) (h : l ≠ []) :
    np_percentile l 100 ∈ l ∧ ∀ x ∈ l, x ≤ np_percentile l 100 := by
  have hperm := List.perm_insertionSort (α := ℝ) (· ≤ ·) l
  have hsorted := List.sorted_insertionSort (α := ℝ) (· ≤ ·) l
  have hn : 1 ≤ l.length := List.length_pos.2 h
  have hslen : (List.insertionSort (· ≤ ·) l).length = l.length :=
    hperm.length_eq
  have hsne : List.insertionSort (· ≤ ·) l ≠ [] := by
    intro hcon
    have : l.length = 0 := by rw [← hslen, hcon]; rfl
    omega
  have hpos : (100 : ℝ) / 100 * ((l.length : ℝ) - 1) =
      (((l.length : ℤ) - 1 : ℤ) : ℝ) := by push_cast; ring
  have hfloor : ⌊(100 : ℝ) / 100 * ((l.length : ℝ) - 1)⌋ =
      (l.length : ℤ) - 1 := by rw [hpos, Int.floor_intCast]
  have hvalue : np_percentile l 100 =
      (List.insertionSort (· ≤ ·) l).getLastD 0 := by
    simp only [np_percentile]
    rw [hfloor]
    have hg : (100 : ℝ) / 100 * ((l.length : ℝ) - 1) -
        (((l.length : ℤ) - 1 : ℤ) : ℝ) = 0 := by push_cast; ring
    rw [hg]
    have htn : ((l.length : ℤ) - 1).toNat = l.length - 1 := by omega
    rw [htn]
    have hmin : min (l.length - 1 + 1) (l.length - 1) = l.length - 1 := by
      omega
    rw [hmin]
    have : ((List.insertionSort (· ≤ ·) l).length - 1) = l.length - 1 := by
      omega
    rw [← this, getD_length_sub_one_eq_getLastD]
    ring
  constructor
  · rw [hvalue]
    exact hperm.subset (getLastD_mem_of_ne_nil _ 0 hsne)
  · intro x hx
    rw [hvalue]
    exact le_getLastD_of_pairwise hsorted 0 (hperm.mem_iff.2 hx)

lemma np_percentile_zero (l : List ℝ) (h : l ≠ []) :
    np_percentile l 0 ∈ l ∧ ∀ x ∈ l, np_percentile l 0 ≤ x := by
  have hperm := List.perm_insertionSort (α := ℝ) (· ≤ ·) l
  have hsorted := List.sorted_insertionSort (α := ℝ) (· ≤ ·) l
  have hn : 1 ≤ l.length := List.length_pos.2 h
  have hslen : (List.insertionSort (· ≤ ·) l).length = l.length :=
    hperm.length_eq
  have hsne : List.insertionSort (· ≤ ·) l ≠ [] := by
    intro hcon
    have : l.length = 0 := by rw [← hslen, hcon]; rfl
    omega
  have hpos : (0 : ℝ) / 100 * ((l.length : ℝ) - 1) = 0 := by ring
  have hfloor : ⌊(0 : ℝ) / 100 * ((l.length : ℝ) - 1)⌋ = 0 := by
    rw [hpos, Int.floor_zero]
  have hvalue : np_percentile l 0 =
      (List.insertionSort (· ≤ ·) l).headD 0 := by
    simp only [np_percentile]
    rw [hfloor]
    have hg : (0 : ℝ) / 100 * ((l.length : ℝ) - 1) - ((0 : ℤ) : ℝ) = 0 := by
      push_cast; ring
    rw [hg]
    rw [Int.toNat_zero, getD_zero_eq_headD]
    ring
  constructor
  · rw [hvalue]
    exact hperm.subset (headD_mem_of_ne_nil _ 0 hsne)
  · intro x hx
    rw [hvalue]
    exact headD_le_of_pairwise hsorted (hperm.mem_iff.2 hx)

lemma rotAccColumn_ne_nil (Ag1 Ag2 : List ℝ) (dt : ℝ) (T : List ℝ)
    (xi : ℝ) (j : ℕ) : rotAccColumn Ag1 Ag2 dt T xi j ≠ [] := by
  have : (rotAccColumn Ag1 Ag2 dt T xi j).length = 180 := by
    simp [rotAccColumn, Rot_Acc_matrix, Rot_Disp_matrix]
  intro hcon
  rw [hcon] at this
  simp at this

lemma RotDxx_spectrum_getD (Ag1 Ag2 : List ℝ) (dt : ℝ) (T : List ℝ)
    (xi : ℝ) (xx : ℝ) (j : ℕ) (hj : j < T.length) :
    (RotDxx_spectrum Ag1 Ag2 dt T xi xx).getD j 0 =
      np_percentile (rotAccColumn Ag1 Ag2 dt T xi j) xx := by
  have hlen : (RotDxx_spectrum Ag1 Ag2 dt T xi xx).length = T.length := by
    simp [RotDxx_spectrum]
  rw [List.getD_eq_getElem _ _ (by rw [hlen]; exact hj)]
  simp [RotDxx_spectrum]

/-! ## Claim theorems -/

/-- C1: the SDOF solver uses `γ = 1/2` for every period, and selects
`β` per period independently — `β = 1/6` for a period with
`dt/T ≤ 0.55` and `β = 1/4` for a period with `dt/T > 0.55` — so two
periods in the same grid may use different `β` values in the same
invocation (exhibited by the grid `[1, 0.3]` with `dt = 0.2`). -/
theorem newmark_gamma_beta_selection (dt T : ℝ) :
    newmarkGamma = 1 / 2 ∧
    (dt / T ≤ 0.55 → newmarkBeta dt T = 1 / 6) ∧
    (0.55 < dt / T → newmarkBeta dt T = 1 / 4) ∧
    sdofBetas 0.2 [1, 0.3] = [1 / 6, 1 / 4] := by
  refine ⟨rfl, ?_, ?_, ?_⟩
  · intro h
    simp [newmarkBeta, not_lt.2 h]
  · intro h
    simp [newmarkBeta, h]
  · unfold sdofBetas newmarkBeta
    norm_num

theorem newmark_gamma_beta_selection_witness :
    ((0.2 : ℝ) / 1 ≤ 0.55 ∧ newmarkBeta 0.2 1 = 1 / 6) ∧
    (0.55 < (0.2 : ℝ) / 0.3 ∧ newmarkBeta 0.2 0.3 = 1 / 4) :=
  ⟨⟨by norm_num, (newmark_gamma_beta_selection 0.2 1).2.1 (by norm_num)⟩,
   ⟨by norm_num, (newmark_gamma_beta_selection 0.2 0.3).2.2.1 (by norm_num)⟩⟩

/-- C2 counterexample: `(None, None)` is NOT rejected with a
configuration error: lines 102-110 classify it as a lowpass with a
`None` cutoff, and the failure that eventually occurs is the
`TypeError` from `wp = cut_off / nyq` (line 147), which fires after
the optional Gibbs padding, not a configuration `ValueError` raised
up front. -/
theorem cutoff_none_none_not_config_error :
    select_filter none none = FilterSel.low none ∧
    butterworth_config [none, none] (1 / 100) =
      Except.error PyError.typeError ∧
    PyError.typeError ≠ PyError.valueError :=
  ⟨rfl, by norm_num [butterworth_config, butter_wp, select_filter],
   by decide⟩

/-- C2 (amended): `(None, f)` applies a lowpass at `f`, `(f, None)` a
highpass at `f`, `(f1, f2)` a bandpass; `(None, None)` is classified
as a lowpass with a missing cutoff and the call fails later with a
`TypeError` when the normalized cutoff is computed — not with a
configuration error before any computation proceeds. -/
theorem filter_type_selection (f f1 f2 dt : ℚ) (hdt : dt ≠ 0) :
    select_filter none (some f) = FilterSel.low (some f) ∧
    select_filter (some f) none = FilterSel.high (some f) ∧
    select_filter (some f1) (some f2) = FilterSel.band f1 f2 ∧
    select_filter none none = FilterSel.low none ∧
    butterworth_config [none, none] dt = Except.error PyError.typeError := by
  refine ⟨rfl, rfl, rfl, rfl, ?_⟩
  simp [butterworth_config, select_filter, butter_wp, hdt]

theorem filter_type_selection_witness :
    (1 : ℚ) / 100 ≠ 0 ∧
    butterworth_config [none, none] (1 / 100) =
      Except.error PyError.typeError :=
  ⟨by norm_num,
   (filter_type_selection 1 2 3 (1 / 100) (by norm_num)).2.2.2.2⟩

/-- C3 counterexample: a `(None, f)` cutoff selects a LOWPASS (not a
highpass) and an `(f, None)` cutoff selects a HIGHPASS (not a
lowpass), at `f = 15`. -/
theorem filter_selection_not_inverted :
    select_filter none (some 15) ≠ FilterSel.high (some 15) ∧
    select_filter (some 15) none ≠ FilterSel.low (some 15) := by
  decide

/-- C3 (amended): a cutoff pair whose low element is `None` selects a
lowpass filter at the high element, and a cutoff pair whose high
element is `None` selects a highpass filter at the low element —
the converse of the claim's (spec §4.1's) wording, matching the
code and its own docstring. -/
theorem filter_selection_low_none_is_lowpass (f : ℚ) :
    select_filter none (some f) = FilterSel.low (some f) ∧
    select_filter (some f) none = FilterSel.high (some f) :=
  ⟨rfl, rfl⟩

theorem filter_selection_low_none_is_lowpass_witness :
    select_filter none (some 7) = FilterSel.low (some 7) ∧
    select_filter (some 7) none = FilterSel.high (some 7) :=
  filter_selection_low_none_is_lowpass 7

/-- C4 (code bug exhibit): line 508 stores the Fourier amplitude
matrix under the `'PAS'` key (`param['PAS'] = FAS`), discarding the
computed `Pamp = Famp² / (π·Td·aRMS²)`.  At `freq = [1]`,
`Famp = [2]`, `Td = 1`, `aRMS = 1` the value stored under `'PAS'` is
the raw amplitude `2`, which differs from the claimed
`Famp²/(π·Td·aRMS²) = 4/π`. -/
theorem pas_key_holds_fas_not_pamp :
    (fourier_spectra [1] [2] 1 1).PAS = [((1 : ℝ), (2 : ℝ))] ∧
    (2 : ℝ) ≠ (2 : ℝ) ^ 2 / (Real.pi * 1 * 1 ^ 2) := by
  constructor
  · simp [fourier_spectra]
  · intro hcon
    have hpi : Real.pi ≠ 0 := Real.pi_ne_zero
    rw [one_pow, mul_one, mul_one] at hcon
    have h2 : 2 * Real.pi = 2 ^ 2 := by
      field_simp at hcon
      linarith
    have h3 := Real.pi_gt_three
    nlinarith

/-- C5: the Arias-intensity running curve
`Aint = (π/(2·9.81))·cumsum(accel²)·dt` is monotonically
non-decreasing (as a `Chain'` of `≤`), and the reported total Arias
intensity is its terminal value. -/
theorem arias_curve_monotone_and_total (Ag : List ℝ) (dt : ℝ)
    (hdt : 0 < dt) :
    List.Chain' (· ≤ ·) (ariasCurve Ag dt) ∧
    arias_total Ag dt = (ariasCurve Ag dt).getLastD 0 :=
  ⟨chain'_ariasCurve Ag dt hdt.le, rfl⟩

theorem arias_curve_monotone_and_total_witness :
    (0 : ℝ) < 1 ∧ List.Chain' (· ≤ ·) (ariasCurve [1, 2] 1) :=
  ⟨by norm_num, (arias_curve_monotone_and_total [1, 2] 1 (by norm_num)).1⟩

/-- C6: whenever both significant-duration windows are non-empty, the
rounded significant durations satisfy `D_5_95 ≥ D_5_75 ≥ 0`. -/
theorem significant_durations_ordered (Ag : List ℝ) (dt : ℝ)
    (hdt : 0 < dt) (h75 : sigMaskTimes Ag dt 0.75 ≠ [])
    (h95 : sigMaskTimes Ag dt 0.95 ≠ []) :
    0 ≤ sigDur Ag dt 0.75 ∧ sigDur Ag dt 0.75 ≤ sigDur Ag dt 0.95 :=
  sigDur_ordering Ag dt hdt.le h75 h95

theorem significant_durations_ordered_witness :
    ((0 : ℝ) < 1 ∧ sigMaskTimes [0] 1 0.75 ≠ [] ∧
      sigMaskTimes [0] 1 0.95 ≠ []) ∧
    0 ≤ sigDur [0] 1 0.75 ∧ sigDur [0] 1 0.75 ≤ sigDur [0] 1 0.95 := by
  have h75 : sigMaskTimes [0] 1 0.75 ≠ [] := by
    simp [sigMaskTimes, ariasCurve, cumsum, List.scanl]
    exact ⟨0, 0, by simp [List.range_succ], le_refl 0, le_refl 0⟩
  have h95 : sigMaskTimes [0] 1 0.95 ≠ [] := by
    simp [sigMaskTimes, ariasCurve, cumsum, List.scanl]
    exact ⟨0, 0, by simp [List.range_succ], le_refl 0, le_refl 0⟩
  exact ⟨⟨by norm_num, h75, h95⟩,
    significant_durations_ordered [0] 1 (by norm_num) h75 h95⟩

/-- C7: for every pair of equal-length components, time step, strictly
positive period grid and damping ratio, the RotDxx spectrum with
`percentile = 100` is, at each period index, the maximum of the 180
rotated pseudo-acceleration values (it is one of them and bounds them
all), and with `percentile = 0` it is their minimum. -/
theorem rotdxx_percentile_100_max_0_min (Ag1 Ag2 : List ℝ) (dt : ℝ)
    (T : List ℝ) (xi : ℝ) (j : ℕ) (hlen : Ag1.length = Ag2.length)
    (hT : ∀ x ∈ T, 0 < x) (hj : j < T.length) :
    ((RotDxx_spectrum Ag1 Ag2 dt T xi 100).getD j 0 ∈
        rotAccColumn Ag1 Ag2 dt T xi j ∧
      ∀ x ∈ rotAccColumn Ag1 Ag2 dt T xi j,
        x ≤ (RotDxx_spectrum Ag1 Ag2 dt T xi 100).getD j 0) ∧
    ((RotDxx_spectrum Ag1 Ag2 dt T xi 0).getD j 0 ∈
        rotAccColumn Ag1 Ag2 dt T xi j ∧
      ∀ x ∈ rotAccColumn Ag1 Ag2 dt T xi j,
        (RotDxx_spectrum Ag1 Ag2 dt T xi 0).getD j 0 ≤ x) := by
  rw [RotDxx_spectrum_getD Ag1 Ag2 dt T xi 100 j hj,
    RotDxx_spectrum_getD Ag1 Ag2 dt T xi 0 j hj]
  exact ⟨np_percentile_hundred _ (rotAccColumn_ne_nil Ag1 Ag2 dt T xi j),
    np_percentile_zero _ (rotAccColumn_ne_nil Ag1 Ag2 dt T xi j)⟩

theorem rotdxx_percentile_100_max_0_min_witness :
    ([(1 : ℝ)].length = [(1 : ℝ)].length ∧ (∀ x ∈ [(1 : ℝ)], 0 < x) ∧
      0 < [(1 : ℝ)].length) ∧
    (RotDxx_spectrum [1] [1] 1 [1] (1 / 20) 100).getD 0 0 ∈
      rotAccColumn [1] [1] 1 [1] (1 / 20) 0 := by
  refine ⟨⟨rfl, ?_, by norm_num⟩, ?_⟩
  · intro x hx
    rw [List.mem_singleton] at hx
    rw [hx]
    norm_num
  · exact (rotdxx_percentile_100_max_0_min [1] [1] 1 [1] (1 / 20) 0 rfl
      (by intro x hx; rw [List.mem_singleton] at hx; rw [hx]; norm_num)
      (by norm_num)).1.1

/-- C8 counterexample: the SDOF solver performs no `dt` validation at
all.  Called with `dt = -1` it does not fail: it returns a full
length-2 numeric response history for the single supplied period
(the embedding is a total function precisely because `sdof_ltha`
contains no `raise` path). -/
theorem sdof_returns_result_for_nonpositive_dt :
    (sdof_ltha [1, 2] (-1) [1] (1 / 20) 1).length = 1 ∧
    ((sdof_ltha [1, 2] (-1) [1] (1 / 20) 1).headD
        ([], [], [], [])).1.length = 2 := by
  constructor
  · simp [sdof_ltha]
  · have h := sdof_single_lengths [1, 2] (-1) 1 (1 / 20) 1
    simpa [sdof_ltha] using h.1

/-- C8 (amended): none of the core numeric operations validates `dt`;
in particular the SDOF solver, called with any `dt ≤ 0`, proceeds and
returns the four response histories at full record length for every
period instead of failing with an invalid-input error. -/
theorem sdof_no_dt_validation (Ag : List ℝ) (dt : ℝ) (T : List ℝ)
    (xi m : ℝ) (hdt : dt ≤ 0) (hA : Ag ≠ []) :
    ∀ r ∈ sdof_ltha Ag dt T xi m,
      r.1.length = Ag.length ∧ r.2.1.length = Ag.length ∧
      r.2.2.1.length = Ag.length ∧ r.2.2.2.length = Ag.length := by
  intro r hr
  rcases List.mem_map.1 hr with ⟨Tj, _, rfl⟩
  exact sdof_single_lengths Ag dt Tj xi m

theorem sdof_no_dt_validation_witness :
    ((-1 : ℝ) ≤ 0 ∧ [(1 : ℝ)] ≠ []) ∧
    ((sdof_ltha [(1 : ℝ)] (-1) [2] (1 / 20) 1).headD
        ([], [], [], [])).2.2.2.length = 1 := by
  refine ⟨⟨by norm_num, by simp⟩, ?_⟩
  have hmem : (sdof_ltha [(1 : ℝ)] (-1) [2] (1 / 20) 1).headD
      ([], [], [], []) ∈ sdof_ltha [(1 : ℝ)] (-1) [2] (1 / 20) 1 := by
    apply headD_mem_of_ne_nil
    simp [sdof_ltha]
  have h := sdof_no_dt_validation [(1 : ℝ)] (-1) [2] (1 / 20) 1
    (by norm_num) (by simp) _ hmem
  simpa using h.2.2.2

/-- C9: for every non-empty record, `dt > 0`, strictly positive period
grid, damping ratio and mass, all four response histories returned by
the SDOF solver have exactly the record's length, per period. -/
theorem sdof_histories_full_length (Ag : List ℝ) (dt : ℝ) (T : List ℝ)
    (xi m : ℝ) (hA : Ag ≠ []) (hdt : 0 < dt) (hT : ∀ x ∈ T, 0 < x) :
    ∀ r ∈ sdof_ltha Ag dt T xi m,
      r.1.length = Ag.length ∧ r.2.1.length = Ag.length ∧
      r.2.2.1.length = Ag.length ∧ r.2.2.2.length = Ag.length := by
  intro r hr
  rcases List.mem_map.1 hr with ⟨Tj, _, rfl⟩
  exact sdof_single_lengths Ag dt Tj xi m

theorem sdof_histories_full_length_witness :
    ([(1 : ℝ), 2] ≠ [] ∧ (0 : ℝ) < 1 ∧ (∀ x ∈ [(1 : ℝ)], 0 < x)) ∧
    ((sdof_ltha [(1 : ℝ), 2] 1 [1] (1 / 20) 1).headD
        ([], [], [], [])).2.2.2.length = 2 := by
  refine ⟨⟨by simp, by norm_num, ?_⟩, ?_⟩
  · intro x hx
    rw [List.mem_singleton] at hx
    rw [hx]
    norm_num
  · have hmem : (sdof_ltha [(1 : ℝ), 2] 1 [1] (1 / 20) 1).headD
        ([], [], [], []) ∈ sdof_ltha [(1 : ℝ), 2] 1 [1] (1 / 20) 1 := by
      apply headD_mem_of_ne_nil
      simp [sdof_ltha]
    have h := sdof_histories_full_length [(1 : ℝ), 2] 1 [1] (1 / 20) 1
      (by simp) (by norm_num)
      (by intro x hx; rw [List.mem_singleton] at hx; rw [hx]; norm_num)
      _ hmem
    simpa using h.2.2.2

/-- C10 counterexample: with mass `m = 0` the first total-acceleration
sample does not vanish: for record `[1]` the embedding yields
`(0 - 0 - 0)/0 + 1 = 1 ≠ 0` (NumPy produces `0.0/0.0 = nan ≠ 0` at
the same input), so the claim's "regardless of the mass" fails at
`m = 0`. -/
theorem first_total_acc_nonzero_for_zero_mass :
    (sdof_single [1] 1 1 (1 / 20) 0).2.2.2.headD 0 ≠ 0 := by
  simp [sdof_single, List.scanl]

/-- C10 (amended): for every non-empty record, time step, strictly
positive period grid, damping ratio and NONZERO mass, the first
total-acceleration sample of every per-period history is exactly
zero: `ac[0] = (p[0] - c·0 - k·0)/m = -Ag[0]` and
`ac_tot[0] = ac[0] + Ag[0] = 0`. -/
theorem first_total_acc_sample_zero (Ag : List ℝ) (dt : ℝ) (T : List ℝ)
    (xi m : ℝ) (hA : Ag ≠ []) (hm : m ≠ 0) (hT : ∀ x ∈ T, 0 < x) :
    ∀ r ∈ sdof_ltha Ag dt T xi m, r.2.2.2.headD 0 = 0 := by
  intro r hr
  rcases List.mem_map.1 hr with ⟨Tj, _, rfl⟩
  exact sdof_single_ac_tot_headD Ag dt Tj xi m hm hA

theorem first_total_acc_sample_zero_witness :
    ([(5 : ℝ)] ≠ [] ∧ (1 : ℝ) ≠ 0 ∧ (∀ x ∈ [(2 : ℝ)], 0 < x)) ∧
    ((sdof_ltha [(5 : ℝ)] 1 [2] (1 / 20) 1).headD
        ([], [], [], [])).2.2.2.headD 0 = 0 := by
  refine ⟨⟨by simp, by norm_num, ?_⟩, ?_⟩
  · intro x hx
    rw [List.mem_singleton] at hx
    rw [hx]
    norm_num
  · have hmem : (sdof_ltha [(5 : ℝ)] 1 [2] (1 / 20) 1).headD
        ([], [], [], []) ∈ sdof_ltha [(5 : ℝ)] 1 [2] (1 / 20) 1 := by
      apply headD_mem_of_ne_nil
      simp [sdof_ltha]
    exact first_total_acc_sample_zero [(5 : ℝ)] 1 [2] (1 / 20) 1
      (by simp) (by norm_num)
      (by intro x hx; rw [List.mem_singleton] at hx; rw [hx]; norm_num)
      _ hmem

end GMProc

